import Mathlib

/-!
# mkv2cast — shallow embedding and verification of spec claims

This file embeds, in Lean, the parts of the `mkv2cast` code base that the
spec claims C1–C10 are about, and settles each claim against the embedding.

Conventions of the embedding:
* Python strings are Lean `String`s (scanned as `List Char`).
* Python `float` arithmetic is modelled exactly over `ℚ` (the claims under
  study concern division-by-zero guards and clamping, not rounding error).
* Subprocess results (`ffprobe`, `ffmpeg`) are oracle parameters: a function
  from the argument vector and timeout to the observed result.
* Python exceptions are `Except String` results.
* File-system paths are strings; `Path.stem` / `Path.parent` / `Path.name`
  are implemented for normalized POSIX paths (no trailing slashes).
-/

namespace Mkv2cast

/-! ## String scanning primitives

`re.search` over the specific patterns used in `converter.py` is modelled by
trying the pattern at every start position, leftmost first, exactly as the
Python regex engine does for these patterns (each pattern starts with a
literal, and the character classes involved make backtracking degenerate).
-/

/-- Try a position-anchored matcher at every suffix, leftmost first
(the semantics of `re.search` for the anchored matchers below). -/
def scanFor {α : Type} (f : List Char → Option α) : List Char → Option α
  | [] => f []
  | c :: rest =>
    match f (c :: rest) with
    | some a => some a
    | none => scanFor f rest

/-- Consume a literal, or fail. -/
def stripLit (lit : List Char) (s : List Char) : Option (List Char) :=
  if lit.isPrefixOf s then some (s.drop lit.length) else none

/-- Maximal run of decimal digits, at least one (`\d+`). -/
def takeDigits1 (s : List Char) : Option (Nat × List Char) :=
  let ds := s.takeWhile Char.isDigit
  if ds.isEmpty then none
  else some (ds.foldl (fun a c => a * 10 + (c.toNat - 48)) 0, s.dropWhile Char.isDigit)

/-- Expect one specific character. -/
def expectChar (c : Char) : List Char → Option (List Char)
  | d :: rest => if d = c then some rest else none
  | [] => none

/-- `[0-9.]` character class. -/
def isNumDot (c : Char) : Bool := c.isDigit || c = '.'

/-- Does `sub` occur as a substring (Python `in`)? -/
def containsSub (s sub : String) : Bool :=
  (scanFor (fun t => if sub.toList.isPrefixOf t then some () else none) s.toList).isSome

/-- Lowercase a string (Python `str.lower` over ASCII). -/
def pyLower (s : String) : String := s.map Char.toLower

/-- Uppercase a string (Python `str.upper` over ASCII). -/
def pyUpper (s : String) : String := s.map Char.toUpper

/-- Python `float()` on a `[0-9.]+` token: valid iff it has at least one
digit and at most one dot; value is the decimal it denotes. -/
def pyFloat? (g : List Char) : Option ℚ :=
  if g.any Char.isDigit ∧ (g.filter (· = '.')).length ≤ 1 then
    let intPart := g.takeWhile (· ≠ '.')
    let fracPart := (g.dropWhile (· ≠ '.')).drop 1
    let ip : ℚ := intPart.foldl (fun a c => a * 10 + ((c.toNat - 48 : Nat) : ℚ)) 0
    let fp : ℚ := fracPart.foldl (fun a c => a * 10 + ((c.toNat - 48 : Nat) : ℚ)) 0
    some (ip + fp / ((10 : ℚ) ^ fracPart.length))
  else none

/-- Python `f"{x:.1f}"` for a nonnegative value: one decimal digit,
round half to even (value model; the claims never depend on this). -/
def pyFormat1f (q : ℚ) : String :=
  let scaled : ℚ := q * 10
  let fl : ℤ := scaled.floor
  let frac : ℚ := scaled - (fl : ℚ)
  let r : ℤ :=
    if frac > 1/2 then fl + 1
    else if frac < 1/2 then fl
    else if fl % 2 = 0 then fl else fl + 1
  let n : Nat := r.toNat
  toString (n / 10) ++ "." ++ toString (n % 10)

/-! ## `converter.parse_ffmpeg_progress` (converter.py:895-961) -/

/-- Result dictionary of `parse_ffmpeg_progress`. -/
structure FFProgress where
  progress_percent : ℚ
  fps : ℚ
  speed : String
  bitrate : String
  current_time_ms : Nat
  frame : Nat
  size_bytes : Nat
deriving Repr, DecidableEq

/-- `re.search(r"time=\s*(\d+):(\d+):(\d+)[\.,](\d+)", line)`, returning the
derived `current_ms = (h*3600 + mi*60 + s)*1000 + cs*10` (converter.py:925-928). -/
def parseTimeAt (s : List Char) : Option Nat := do
  let s ← stripLit "time=".toList s
  let s := s.dropWhile Char.isWhitespace
  let (h, s) ← takeDigits1 s
  let s ← expectChar ':' s
  let (mi, s) ← takeDigits1 s
  let s ← expectChar ':' s
  let (sec, s) ← takeDigits1 s
  let s ← (expectChar '.' s).orElse (fun _ => expectChar ',' s)
  let (cs, _) ← takeDigits1 s
  pure ((h * 3600 + mi * 60 + sec) * 1000 + cs * 10)

/-- `re.search(r"fps=\s*([0-9.]+)", line)` — the captured group. -/
def parseFpsAt (s : List Char) : Option (List Char) := do
  let s ← stripLit "fps=".toList s
  let s := s.dropWhile Char.isWhitespace
  let g := s.takeWhile isNumDot
  if g.isEmpty then none else pure g

/-- `re.search(r"speed=\s*([0-9.]+)x", line)` — the captured group.
The `[0-9.]+` run must be immediately followed by `x` (shortening the greedy
run only exposes more `[0-9.]` characters, so no backtracking succeeds). -/
def parseSpeedAt (s : List Char) : Option (List Char) := do
  let s ← stripLit "speed=".toList s
  let s := s.dropWhile Char.isWhitespace
  let g := s.takeWhile isNumDot
  if g.isEmpty then none
  else
    let _ ← expectChar 'x' (s.dropWhile isNumDot)
    pure g

/-- `re.search(r"bitrate=\s*([^\s]+)", line)` — the captured group. -/
def parseBitrateAt (s : List Char) : Option (List Char) := do
  let s ← stripLit "bitrate=".toList s
  let s := s.dropWhile Char.isWhitespace
  let g := s.takeWhile (fun c => ¬ c.isWhitespace)
  if g.isEmpty then none else pure g

/-- `re.search(r"frame=\s*(\d+)", line)`. -/
def parseFrameAt (s : List Char) : Option Nat := do
  let s ← stripLit "frame=".toList s
  let s := s.dropWhile Char.isWhitespace
  let (n, _) ← takeDigits1 s
  pure n

/-- `re.search(r"size=\s*(\d+)kB", line)`. -/
def parseSizeAt (s : List Char) : Option Nat := do
  let s ← stripLit "size=".toList s
  let s := s.dropWhile Char.isWhitespace
  let (n, s) ← takeDigits1 s
  let s ← expectChar 'k' s
  let _ ← expectChar 'B' s
  pure n

/-- The `current_time_ms` field: 0 unless the time pattern matched. -/
def currentTimeField (ls : List Char) : Nat :=
  (scanFor parseTimeAt ls).getD 0

/-- The `progress_percent` field: set only when the time pattern matched and
`dur_ms > 0`, to `min(100.0, (current_ms / dur_ms) * 100)` (converter.py:930-931). -/
def percentField (ls : List Char) (dur_ms : Nat) : ℚ :=
  match scanFor parseTimeAt ls with
  | some ms => if 0 < dur_ms then min 100 ((ms : ℚ) / (dur_ms : ℚ) * 100) else 0
  | none => 0

/-- The `fps` field: `float(...)` wrapped in `try/except ValueError` → 0 on failure. -/
def fpsField (ls : List Char) : ℚ :=
  match scanFor parseFpsAt ls with
  | some g => (pyFloat? g).getD 0
  | none => 0

/-- The `speed` field: `f"{float(g):.1f}x"`; the `float` call is NOT guarded,
so an unconvertible group (e.g. `1.2.3`) raises ValueError out of the parser. -/
def speedField (ls : List Char) : Except String String :=
  match scanFor parseSpeedAt ls with
  | some g =>
    match pyFloat? g with
    | some q => .ok (pyFormat1f q ++ "x")
    | none => .error "ValueError: could not convert string to float"
  | none => .ok ""

/-- The `bitrate` field. -/
def bitrateField (ls : List Char) : String :=
  match scanFor parseBitrateAt ls with
  | some g => String.mk g
  | none => ""

/-- The `frame` field. -/
def frameField (ls : List Char) : Nat :=
  (scanFor parseFrameAt ls).getD 0

/-- The `size_bytes` field: `int(group) * 1024`. -/
def sizeBytesField (ls : List Char) : Nat :=
  ((scanFor parseSizeAt ls).getD 0) * 1024

/-- `converter.parse_ffmpeg_progress(line, dur_ms)` (converter.py:895-961).
Returns the result dictionary, or the uncaught ValueError that the unguarded
`float()` in the speed branch can raise. -/
def parse_ffmpeg_progress (line : String) (dur_ms : Nat) : Except String FFProgress :=
  let ls := line.toList
  (speedField ls).map fun sp =>
    { progress_percent := percentField ls dur_ms
      fps := fpsField ls
      speed := sp
      bitrate := bitrateField ls
      current_time_ms := currentTimeField ls
      frame := frameField ls
      size_bytes := sizeBytesField ls }

/-! ## Pipeline progress adapter and delivery loop
(pipeline.py:163-261, `run_ffmpeg_with_progress`, `_parse_ffmpeg_progress`) -/

/-- Truncation toward zero, Python `int(float)`. -/
def intTrunc (q : ℚ) : ℤ :=
  if 0 ≤ q then q.floor else -((-q).floor)

/-- `pipeline._parse_ffmpeg_progress(line, dur_ms)` (pipeline.py:235-261):
`(int(progress_percent), speed, int(current_time_ms))`. A ValueError raised
by the underlying parser propagates (the adapter only guards the
conversions). -/
def pipelineParseProgress (line : String) (dur_ms : Nat) :
    Except String (ℤ × String × Nat) :=
  (parse_ffmpeg_progress line dur_ms).map fun info =>
    (intTrunc info.progress_percent, info.speed, info.current_time_ms)

/-- One delivered `update_encode` event: the `(pct, speed)` pair passed to the
progress sink (the sink, `RichProgressUI.update_encode` at rich_ui.py:363-386,
stores `pct` without any clamping). -/
abbrev Delivered := ℤ × String

/-- The stderr-consumption loop of `run_ffmpeg_with_progress`
(pipeline.py:196-226): starting from `last_pct = 0, last_speed = ""`, for each
line parse progress and deliver `update_encode(pct, speed)` when
`pct > last_pct or speed != last_speed`. An exception from the parser aborts
the loop (it propagates out of `run_ffmpeg_with_progress`). -/
def runProgressLoop (dur_ms : Nat) : List String → ℤ → String → List Delivered
  | [], _, _ => []
  | l :: rest, lastPct, lastSpeed =>
    match pipelineParseProgress l dur_ms with
    | .error _ => []
    | .ok (pct, speed, _outMs) =>
      if pct > lastPct ∨ speed ≠ lastSpeed then
        (pct, speed) :: runProgressLoop dur_ms rest pct speed
      else
        runProgressLoop dur_ms rest lastPct lastSpeed

/-- All `update_encode` percent/speed pairs delivered for one attempt of one
job, over a given sequence of ffmpeg stderr lines. -/
def deliveredUpdates (dur_ms : Nat) (lines : List String) : List Delivered :=
  runProgressLoop dur_ms lines 0 ""

/-- The speed string a line contributes (`""` when the line raises). -/
def lineSpeed (dur_ms : Nat) (line : String) : String :=
  match pipelineParseProgress line dur_ms with
  | .ok r => r.2.1
  | .error _ => ""

/-! ## Path model (`pathlib.Path` on normalized POSIX paths) -/

/-- `Path(p).name`: the component after the last `/` (paths are assumed
normalized, i.e. no trailing slash). -/
def pathName (p : String) : String :=
  String.mk ((p.toList.reverse.takeWhile (· ≠ '/')).reverse)

/-- `Path(p).stem`: `name` with its suffix removed; a suffix exists iff the
last dot of `name` is neither its first nor past its last character. -/
def pathStem (p : String) : String :=
  match (pathName p).toList.reverse.takeWhile (· ≠ '.'),
      (pathName p).toList.reverse.dropWhile (· ≠ '.') with
  | _ :: _, '.' :: c :: stemRev => String.mk ((c :: stemRev).reverse)
  | _, _ => pathName p

/-- `str(Path(p).parent)`: everything before the last `/`; `.` when there is
no slash, `/` when the only slash is leading. -/
def pathParent (p : String) : String :=
  match p.toList.reverse.dropWhile (· ≠ '/') with
  | [] => "."
  | ['/'] => "/"
  | _ :: butLastRev => String.mk butLastRev.reverse

/-! ## Temp and final paths (C1)

`cli.get_tmp_path` (cli.py:747-757) resolves `tmp_dir` from
`APP_DIRS["tmp"]`, the XDG cache directory `{cache_home}/mkv2cast/tmp`
created by `config.get_app_dirs`; it is a parameter here, as are `os.getpid()`
and the relevant `Config` fields. -/

/-- `cli.get_tmp_path(inp, worker_id, tag, cfg)` (cli.py:747-757). -/
def get_tmp_path (tmpDir : String) (pid : Nat) (cfgSuffix cfgContainer : String)
    (inp : String) (workerId : Nat) (tag : String) : String :=
  tmpDir ++ "/" ++
    (pathStem inp ++ tag ++ cfgSuffix ++ ".tmp." ++ toString pid ++ "." ++
      toString workerId ++ "." ++ cfgContainer)

/-- The final output path built by the integrity worker
(pipeline.py:392): `inp.parent / f"{inp.stem}{tag}{suffix}.{container}"`. -/
def final_path (cfgSuffix cfgContainer : String) (inp : String) (tag : String) : String :=
  pathParent inp ++ "/" ++ (pathStem inp ++ tag ++ cfgSuffix ++ "." ++ cfgContainer)

/-- The path the spec's path-scheme sentence describes: the same filename in
`basedir`, the directory of `final_path`. (Spec wording, for comparison with
`get_tmp_path`.) -/
def spec_tmp_path (pid : Nat) (cfgSuffix cfgContainer : String)
    (inp : String) (workerId : Nat) (tag : String) : String :=
  pathParent (final_path cfgSuffix cfgContainer inp tag) ++ "/" ++
    (pathStem inp ++ tag ++ cfgSuffix ++ ".tmp." ++ toString pid ++ "." ++
      toString workerId ++ "." ++ cfgContainer)

/-! ## Decision engine: video-copy eligibility (C4)
(`converter.decide_for`, converter.py:661-781; `parse_bitdepth_from_pix`,
converter.py:479-487) -/

/-- `re.search(r"(10|12)le", pix)`: leftmost match, alternative `10` tried
before `12` at each position. -/
def findBitMatch : List Char → Option Nat
  | [] => none
  | c :: rest =>
    if "10le".toList.isPrefixOf (c :: rest) then some 10
    else if "12le".toList.isPrefixOf (c :: rest) then some 12
    else findBitMatch rest

/-- `converter.parse_bitdepth_from_pix` (converter.py:479-487). -/
def parse_bitdepth_from_pix (pix : String) : Nat :=
  let p := pyLower pix
  match findBitMatch p.toList with
  | some b => b
  | none => if containsSub p "p010" then 10 else 8

/-- The `Config` fields `decide_for`'s video branch reads. -/
structure VideoCfg where
  force_h264 : Bool
  allow_hevc : Bool
deriving Repr, DecidableEq

/-- The probed values `decide_for` derives its video decision from
(converter.py:675-693): raw ffprobe strings (missing values are `""`,
missing level is `0`), plus the input's filename (`path.name`). -/
structure VideoProbe where
  fileName : String
  codec_name : String
  pix_fmt : String
  profile : String
  level : ℤ
  color_primaries : String
  color_transfer : String
deriving Repr, DecidableEq

/-- HDR detection (converter.py:691-693). -/
def probeIsHdr (p : VideoProbe) : Bool :=
  let cprim := pyLower p.color_primaries
  let ctrans := pyLower p.color_transfer
  (cprim = "bt2020" ∨ cprim = "bt2020nc" ∨ cprim = "bt2020c") ∨
    (ctrans = "smpte2084" ∨ ctrans = "arib-std-b67")

/-- The `need_v` output of `converter.decide_for` (converter.py:712-746):
the ordered first-match-wins rule chain, transcribed from the source. -/
def decide_need_v (cfg : VideoCfg) (p : VideoProbe) : Bool :=
  let vcodec := pyLower p.codec_name
  let vpix := pyLower p.pix_fmt
  let vprof := pyLower p.profile
  let vlevel := p.level
  let vbit := parse_bitdepth_from_pix vpix
  let vhdr := probeIsHdr p
  let pname := pyUpper p.fileName
  let video_ok : Bool :=
    if vcodec = "av1" ∨ containsSub pname "AV1" then false
    else if cfg.force_h264 then false
    else if vcodec = "h264" then
      vbit ≤ 8 ∧ (vpix = "yuv420p" ∨ vpix = "yuvj420p") ∧ ¬ vhdr ∧
        ¬ (vprof = "high 10" ∨ vprof = "high10" ∨ vprof = "high 4:2:2" ∨
            vprof = "high 4:4:4") ∧
        (vlevel = 0 ∨ vlevel ≤ 41)
    else if vcodec = "hevc" ∨ vcodec = "h265" then
      cfg.allow_hevc ∧ vbit ≤ 8 ∧ ¬ vhdr
    else false
  ¬ video_ok

/-- The claim's rule chain, word for word: copy exactly when the first
matching rule is a copy rule, with the profile exclusion set the claim gives,
`{high 10, high 4:2:2, high 4:4:4}`. (Spec wording, for comparison.) -/
def spec_need_v (cfg : VideoCfg) (p : VideoProbe) : Bool :=
  let vcodec := pyLower p.codec_name
  let vpix := pyLower p.pix_fmt
  let vprof := pyLower p.profile
  let vlevel := p.level
  let vbit := parse_bitdepth_from_pix vpix
  let vhdr := probeIsHdr p
  let pname := pyUpper p.fileName
  if vcodec = "av1" ∨ containsSub pname "AV1" then true
  else if cfg.force_h264 then true
  else if vcodec = "h264" ∧ vbit ≤ 8 ∧ (vpix = "yuv420p" ∨ vpix = "yuvj420p") ∧
      ¬ vhdr ∧
      ¬ (vprof = "high 10" ∨ vprof = "high 4:2:2" ∨ vprof = "high 4:4:4") ∧
      (vlevel = 0 ∨ vlevel ≤ 41) then false
  else if (vcodec = "hevc" ∨ vcodec = "h265") ∧ cfg.allow_hevc ∧ vbit ≤ 8 ∧
      ¬ vhdr then false
  else true

/-- The claim's rule chain with the one amendment the code forces: the
profile exclusion set also contains the no-space spelling `high10`. -/
def spec_need_v_amended (cfg : VideoCfg) (p : VideoProbe) : Bool :=
  let vcodec := pyLower p.codec_name
  let vpix := pyLower p.pix_fmt
  let vprof := pyLower p.profile
  let vlevel := p.level
  let vbit := parse_bitdepth_from_pix vpix
  let vhdr := probeIsHdr p
  let pname := pyUpper p.fileName
  if vcodec = "av1" ∨ containsSub pname "AV1" then true
  else if cfg.force_h264 then true
  else if vcodec = "h264" ∧ vbit ≤ 8 ∧ (vpix = "yuv420p" ∨ vpix = "yuvj420p") ∧
      ¬ vhdr ∧
      ¬ (vprof = "high 10" ∨ vprof = "high10" ∨ vprof = "high 4:2:2" ∨
          vprof = "high 4:4:4") ∧
      (vlevel = 0 ∨ vlevel ≤ 41) then false
  else if (vcodec = "hevc" ∨ vcodec = "h265") ∧ cfg.allow_hevc ∧ vbit ≤ 8 ∧
      ¬ vhdr then false
  else true

/-! ## Audio track selection (C5)
(`converter.select_audio_track`, converter.py:503-572;
`is_audio_description`, converter.py:490-500) -/

/-- One ffprobe stream as the selector sees it: `codec_type`, and the
`tags` values with their Python defaults (`""` when absent). -/
structure ProbeStream where
  codec_type : String
  language : String
  title : String
  index : ℤ
deriving Repr, DecidableEq

/-- `get_lang` (converter.py:529-530). -/
def streamLang (s : ProbeStream) : String := pyLower s.language

/-- `get_title` (converter.py:532-533). -/
def streamTitle (s : ProbeStream) : String := s.title

/-- `converter.is_audio_description` (converter.py:490-500). -/
def is_audio_description (title : String) : Bool :=
  let t := pyLower title
  containsSub t "audio description" ∨ containsSub t "audio-description" ∨
    containsSub t "audiodescription" ∨ containsSub t "visual impaired" ∨
    containsSub t " v.i" ∨ containsSub t " ad"

/-- The audio-description filter the claim states: the same check but with
only the five substrings the claim lists (no `audio-description`).
(Spec wording, for comparison.) -/
def spec_is_audio_description (title : String) : Bool :=
  let t := pyLower title
  containsSub t "audio description" ∨ containsSub t "audiodescription" ∨
    containsSub t "visual impaired" ∨ containsSub t " ad" ∨ containsSub t " v.i"

/-- `stream_lang == lang or stream_lang.startswith(lang)` (converter.py:548,555). -/
def langMatches (streamLg lang : String) : Bool :=
  streamLg = lang ∨ lang.isPrefixOf streamLg

/-- The `Config` fields `select_audio_track` reads. `audio_lang` is the raw
comma-separated option (`None` ↦ `none`); note Python truthiness also treats
`""` as unset. -/
structure AudioCfg where
  audio_track : Option ℤ
  audio_lang : Option String
deriving Repr, DecidableEq

/-- The two-pass search for one language (converter.py:545-556),
parameterized by the audio-description filter. -/
def twoPassForLang (ad : String → Bool) (audio : List ProbeStream) (lang : String) :
    Option ProbeStream :=
  match audio.find? (fun st => langMatches (streamLang st) lang ∧ ¬ ad (streamTitle st)) with
  | some st => some st
  | none => audio.find? (fun st => langMatches (streamLang st) lang)

/-- Iterate the two-pass search over the language priority list. -/
def tryLangList (ad : String → Bool) (audio : List ProbeStream) :
    List String → Option ProbeStream
  | [] => none
  | l :: rest =>
    match twoPassForLang ad audio l with
    | some st => some st
    | none => tryLangList ad audio rest

/-- The default-French two passes (converter.py:558-569),
parameterized by the audio-description filter. -/
def frenchFallback (ad : String → Bool) (audio : List ProbeStream) :
    Option ProbeStream :=
  match audio.find? (fun st =>
      (streamLang st = "fre" ∨ streamLang st = "fra" ∨ streamLang st = "fr") ∧
        ¬ ad (streamTitle st)) with
  | some st => some st
  | none => audio.find? (fun st =>
      streamLang st = "fre" ∨ streamLang st = "fra" ∨ streamLang st = "fr")

/-- `select_audio_track`'s priority chain, parameterized by the
audio-description filter (the code and the claim differ only there). -/
def selectAudioCore (ad : String → Bool) (cfg : AudioCfg) (streams : List ProbeStream) :
    Option ProbeStream :=
  let audio := streams.filter (fun s => s.codec_type = "audio")
  if h : audio = [] then none
  else
    -- 1. explicit track index, used only when in range (converter.py:536-539)
    match cfg.audio_track with
    | some k =>
      if hk : 0 ≤ k ∧ k < audio.length then some (audio.get ⟨k.toNat, by omega⟩)
      else selectAudioLangs ad cfg audio h
    | none => selectAudioLangs ad cfg audio h
where
  /-- Steps 2–4 (converter.py:541-572). -/
  selectAudioLangs (ad : String → Bool) (cfg : AudioCfg) (audio : List ProbeStream)
      (h : ¬ audio = []) : Option ProbeStream :=
    let byList :=
      match cfg.audio_lang with
      | some s =>
        if s = "" then none  -- Python falsiness of the empty string
        else tryLangList ad audio ((s.splitOn ",").map (fun l => pyLower l.trim))
      | none => none
    match byList with
    | some st => some st
    | none =>
      match frenchFallback ad audio with
      | some st => some st
      | none => some (audio.head h)

/-- `converter.select_audio_track` (converter.py:503-572), selected stream
(the returned language is `streamLang` of it, or `""` when none). -/
def select_audio_track (cfg : AudioCfg) (streams : List ProbeStream) :
    Option ProbeStream :=
  selectAudioCore is_audio_description cfg streams

/-- The selection the claim describes: identical priority chain but with the
claim's five-substring audio-description filter. (Spec wording.) -/
def spec_select_audio_track (cfg : AudioCfg) (streams : List ProbeStream) :
    Option ProbeStream :=
  selectAudioCore spec_is_audio_description cfg streams

/-- The claim as amended: the audio-description filter also carries the
hyphenated spelling `audio-description`, i.e. exactly the source's filter. -/
def spec_select_audio_track_amended (cfg : AudioCfg) (streams : List ProbeStream) :
    Option ProbeStream :=
  selectAudioCore is_audio_description cfg streams

/-! ## Encode worker retry loop (C6)
(`PipelineOrchestrator.encode_worker`, pipeline.py:440-569) -/

/-- The `Config` fields the retry loop reads. -/
structure RetryCfg where
  retry_attempts : ℤ
  retry_delay_sec : ℚ
  retry_fallback_cpu : Bool
deriving Repr, DecidableEq

/-- One executed attempt: the backend used, the command rebuilt against that
backend, and the time slept immediately before the attempt
(`time.sleep(retry_delay_sec)` at pipeline.py:462-464, only when
`attempt > 0` and `retry_delay_sec > 0`). -/
structure AttemptRec where
  backend : String
  cmd : List String
  sleptBefore : ℚ
deriving Repr, DecidableEq

/-- The body of `for attempt in range(total_attempts)` (pipeline.py:460-569),
as a trace of executed attempts. `build b` is
`build_transcode_cmd(job…, b, …)` for the fixed job; `outcomes i b` is the
return code of the i-th attempt run on backend `b` (an exception is any
nonzero model value); `stop i` is whether `stop_event` is observed set after
attempt `i` fails. The loop breaks on `rc == 0`, on an observed stop, and
after the final attempt; otherwise it may switch the backend to cpu exactly
when `retry_fallback_cpu` holds, the current backend is not cpu, and
`attempt == total_attempts - 2` (pipeline.py:555-558). -/
def encodeAttemptsGo (total : Nat) (fb : Bool) (delay : ℚ)
    (build : String → List String) (outcomes : Nat → String → ℤ)
    (stop : Nat → Bool) : Nat → String → List AttemptRec
  | i, b =>
    if h : i < total then
      let att : AttemptRec :=
        ⟨b, build b, if 0 < i ∧ 0 < delay then delay else 0⟩
      let rc := outcomes i b
      if rc = 0 then [att]
      else if stop i then [att]
      else if i < total - 1 then
        let b2 := if fb ∧ b ≠ "cpu" ∧ i = total - 2 then "cpu" else b
        att :: encodeAttemptsGo total fb delay build outcomes stop (i + 1) b2
      else [att]
    else []
termination_by i _ => total - i

/-- The full attempt trace of one encode job:
`total_attempts = 1 + max(0, cfg.retry_attempts)` (pipeline.py:454-455). -/
def encode_worker_attempts (cfg : RetryCfg) (base : String)
    (build : String → List String) (outcomes : Nat → String → ℤ)
    (stop : Nat → Bool) : List AttemptRec :=
  encodeAttemptsGo (1 + (max 0 cfg.retry_attempts).toNat) cfg.retry_fallback_cpu
    cfg.retry_delay_sec build outcomes stop 0 base

/-! ## Integrity check (C7)
(`integrity.integrity_check`, integrity.py:110-176;
`check_ffprobe_valid`, integrity.py:58-72; `check_deep_decode`,
integrity.py:75-107) -/

/-- Oracle for `run_quiet(cmd, timeout)` (integrity.py:25-31): whether the
command exits zero within the timeout. -/
abbrev RunQuiet := List String → ℚ → Bool

/-- Oracle for `subprocess.run(cmd, timeout)` (integrity.py:101-107):
`some rc` on completion within the timeout, `none` on timeout or launch
failure. -/
abbrev RunProc := List String → ℚ → Option ℤ

/-- `integrity.check_ffprobe_valid(path)` with its default 8-second timeout
(integrity.py:58-72). -/
def check_ffprobe_valid (runQ : RunQuiet) (path : String) : Bool :=
  runQ ["ffprobe", "-v", "error", "-show_entries", "format=duration",
        "-of", "default=nw=1:nk=1", path] 8

/-- `integrity.check_deep_decode(path, …)` with its 3600-second timeout
(integrity.py:75-107). -/
def check_deep_decode (runP : RunProc) (path : String) : Bool :=
  match runP ["ffmpeg", "-hide_banner", "-loglevel", "error", "-i", path,
              "-map", "0:v:0", "-f", "null", "-"] 3600 with
  | some rc => rc = 0
  | none => false

/-- `integrity.integrity_check` (integrity.py:110-176), success flag.
`size0` is the `file_size(path)` sample before the stability wait and
`sizeAfter` the sample after it; elapsed time and progress callbacks are
elided (they do not affect the returned flag). -/
def integrity_check (enabled : Bool) (stable_wait : ℤ) (deep_check : Bool)
    (path : String) (size0 sizeAfter : Nat) (runQ : RunQuiet) (runP : RunProc) :
    Bool :=
  if ¬ enabled then true
  else if size0 < 1024 * 1024 then false
  else if 0 < stable_wait ∧ size0 ≠ sizeAfter then false
  else if ¬ check_ffprobe_valid runQ path then false
  else if deep_check ∧ ¬ check_deep_decode runP path then false
  else true

/-! ## History: JSONL fallback storage (C10)
(`HistoryDB.record_skip`, history.py:131-154; `HistoryDB.get_recent`,
history.py:156-191, non-SQLite branch) -/

/-- One JSONL history entry: the decoded JSON object as a key/value list
(all scalar values rendered as strings; only key structure matters here). -/
abbrev JEntry := List (String × String)

/-- `dict.get(key)`: the value of the first matching key, or `None`. -/
def jGet (e : JEntry) (key : String) : Option String :=
  (e.find? (fun kv => kv.1 = key)).map (·.2)

/-- Python `dict.update(e)`: keys of `e` override, new keys are appended. -/
def jUpdate (base e : JEntry) : JEntry :=
  (base.filter (fun kv => ¬ (e.map (·.1)).contains kv.1)) ++ e

/-- The entry `HistoryDB.record_skip` appends in the JSONL fallback
(history.py:144-154): note that it carries no `id` key. -/
def record_skip_entry (input now status backend reason : String) : JEntry :=
  [("input", input), ("started", now), ("finished", now), ("status", status),
   ("backend", backend), ("reason", reason)]

/-- A skip record as actually written (`status` is the literal `"skipped"`). -/
def skipEntry (input now backend reason : String) : JEntry :=
  record_skip_entry input now "skipped" backend reason

/-- The merge phase of `get_recent` (history.py:181-188): fold the log into a
map keyed by `e.get("id")` (which is `None` for entries without the key),
merging with `dict.update`; insertion order is preserved, as in a Python
dict. -/
def mergeById (log : List JEntry) : List (Option String × JEntry) :=
  log.foldl (fun acc e =>
    let eid := jGet e "id"
    if (acc.find? (fun kv => kv.1 = eid)).isSome then
      acc.map (fun kv => if kv.1 = eid then (kv.1, jUpdate kv.2 e) else kv)
    else acc ++ [(eid, e)]) []

/-- The sort key of `get_recent`: `x.get("started", "")`. -/
def startedKey (e : JEntry) : String := (jGet e "started").getD ""

/-- Stable descending insertion by `startedKey`. -/
def insertByStartedDesc (e : JEntry) : List JEntry → List JEntry
  | [] => [e]
  | x :: xs =>
    if startedKey x < startedKey e then e :: x :: xs
    else x :: insertByStartedDesc e xs

/-- Insertion sort, descending and stable, by the `started` key — the effect
of `sorted(…, key=lambda x: x.get("started", ""), reverse=True)`
(history.py:190). -/
def sortByStartedDesc (l : List JEntry) : List JEntry :=
  l.foldr insertByStartedDesc []

/-- `HistoryDB.get_recent(limit)`, JSONL branch (history.py:168-191), on an
already-decoded log. -/
def get_recent (limit : Nat) (log : List JEntry) : List JEntry :=
  ((sortByStartedDesc ((mergeById log).map (·.2)))).take limit

/-! ## History: interrupted-run promotion (C3)

`PipelineOrchestrator.run` finishes with
`if self.interrupted and self.history: self.history.interrupt_all()`
(pipeline.py:613-614). The `HistoryRecorder` object it calls this on is
imported from `mkv2cast.history` (pipeline.py:28) but no such class — and no
`interrupt_all` / `interrupt_all_running` operation — is defined anywhere
under the source tree (`HistoryDB` has no such method). -/

/-- A durable history record, reduced to what the promotion touches. -/
structure HRecord where
  input_path : String
  status : String
deriving Repr, DecidableEq

/-- Modelled from the spec: the `interrupt_all_running` operation of the
history recorder, whose implementation is missing from the source tree (only
its call site `self.history.interrupt_all()` at pipeline.py:614 exists).
Per the spec, "on startup or after cancellation, records in state `running`
must be promoted to `interrupted`"; it returns the promoted count. -/
def interrupt_all_running (recs : List HRecord) : List HRecord × Nat :=
  (recs.map (fun r => if r.status = "running" then { r with status := "interrupted" } else r),
   (recs.filter (fun r => r.status = "running")).length)

/-- The end of `PipelineOrchestrator.run` (pipeline.py:613-614): when the run
was interrupted and a history recorder is attached, promote its records. -/
def pipeline_run_epilogue (interrupted : Bool) (history : Option (List HRecord)) :
    Option (List HRecord) :=
  match history with
  | some recs => if interrupted then some (interrupt_all_running recs).1 else some recs
  | none => none

/-! ## Config fields and the `convert_file` preflight (C9)
(`Config`, config.py:112-240; `check_disk_space`, converter.py:95-127;
`convert_file`, converter.py:1052-1219) -/

/-- The fields the `Config` dataclass declares (config.py:112-240),
in declaration order. -/
def configDeclaredFields : List String :=
  ["suffix", "container",
   "recursive", "ignore_patterns", "ignore_paths", "include_patterns", "include_paths",
   "debug", "dryrun",
   "skip_when_ok", "force_h264", "allow_hevc", "force_aac", "keep_surround",
   "add_silence_if_no_audio",
   "abr", "crf", "preset",
   "vaapi_device", "vaapi_qp", "qsv_quality", "nvenc_cq", "amf_quality", "hw",
   "audio_lang", "audio_track",
   "subtitle_lang", "subtitle_track", "prefer_forced_subs", "no_subtitles",
   "integrity_check", "stable_wait", "deep_check",
   "progress", "bar_width", "ui_refresh_ms", "stats_period",
   "pipeline",
   "encode_workers", "integrity_workers",
   "notify", "notify_on_success", "notify_on_failure",
   "lang", "json_progress"]

/-- The safety-rail fields the spec lists and `convert_file` /
`check_disk_space` / `enforce_output_quota` / `build_transcode_cmd` read. -/
def safetyRailFields : List String :=
  ["retry_attempts", "retry_delay_sec", "retry_fallback_cpu",
   "disk_min_free_mb", "disk_min_free_tmp_mb",
   "max_output_mb", "max_output_ratio",
   "preserve_metadata", "preserve_chapters", "preserve_attachments"]

/-- Python attribute read on a dataclass instance: `AttributeError` when the
field is not declared. -/
def pyGetAttr (declared : List String) (name : String) : Except String Unit :=
  if declared.contains name then .ok () else .error ("AttributeError: " ++ name)

/-- Early outcomes of `convert_file` before any encoding. -/
inductive ConvertOutcome
  | analysisFailed
  | alreadyCompatible
  | outputExists
  | reachedEncode
deriving Repr, DecidableEq

/-- The prefix of `converter.convert_file` (converter.py:1108-1148) up to and
including the disk-space preflight, at attribute-access granularity for the
undeclared fields. `analysisOk` abstracts `decide_for` succeeding;
`need_v/need_a` its outputs; `outputExists` the `output_path.exists()` test.
`decide_for` and the output-path construction read only declared fields
(`force_h264`, `allow_hevc`, …, `skip_when_ok`, `suffix`, `container`).
The first undeclared read is `cfg.disk_min_free_mb` inside
`check_disk_space` (converter.py:107), which is outside any `try`. -/
def convert_file_prefix (declared : List String) (analysisOk : Bool)
    (need_v need_a skip_when_ok outputExists : Bool) :
    Except String ConvertOutcome := do
  if ¬ analysisOk then
    return .analysisFailed
  if ¬ need_v ∧ ¬ need_a ∧ skip_when_ok then
    return .alreadyCompatible
  if outputExists then
    return .outputExists
  -- check_disk_space(output_dir, output_dir, input_size, cfg), converter.py:1131
  pyGetAttr declared "disk_min_free_mb"
  pyGetAttr declared "disk_min_free_tmp_mb"
  return .reachedEncode

/-! # Theorems -/

/-! ## C3 — interrupted runs leave no `running` history record -/

/-- C3: after a cancellation, the pipeline's epilogue
(pipeline.py:613-614) invokes `interrupt_all_running` on the attached history
recorder, and afterwards no record is left in status `running`: every
previously-`running` record is promoted to `interrupted` and every other
record is unchanged. (`interrupt_all_running` itself is modelled from the
spec; only its call site exists in the source tree.) -/
theorem C3_interrupt_all_running (recs : List HRecord) :
    pipeline_run_epilogue true (some recs) = some ((interrupt_all_running recs).1) ∧
    (∀ r ∈ (interrupt_all_running recs).1, r.status ≠ "running") ∧
    (interrupt_all_running recs).1 =
      recs.map (fun r =>
        if r.status = "running" then { r with status := "interrupted" } else r) := by
  refine ⟨rfl, ?_, rfl⟩
  intro r hr
  simp only [interrupt_all_running, List.mem_map] at hr
  obtain ⟨r0, _, hr0⟩ := hr
  subst hr0
  by_cases h : r0.status = "running" <;> simp [h]

/-- Witness for C3 at a concrete history store. -/
theorem C3_interrupt_all_running_witness :
    pipeline_run_epilogue true (some [⟨"/a.mkv", "running"⟩, ⟨"/b.mkv", "done"⟩]) =
      some [⟨"/a.mkv", "interrupted"⟩, ⟨"/b.mkv", "done"⟩] ∧
    (⟨"/a.mkv", "interrupted"⟩ : HRecord).status ≠ "running" := by
  refine ⟨(C3_interrupt_all_running [⟨"/a.mkv", "running"⟩, ⟨"/b.mkv", "done"⟩]).1.trans ?_, ?_⟩
  · rfl
  · exact (C3_interrupt_all_running [⟨"/a.mkv", "running"⟩, ⟨"/b.mkv", "done"⟩]).2.1
      ⟨"/a.mkv", "interrupted"⟩ (by simp [interrupt_all_running])

/-! ## C9 — safety-rail fields are undeclared and `convert_file` trips on them -/

/-- C9: none of the ten safety-rail fields is declared by the `Config`
dataclass, and for a plain `Config()` every `convert_file` run that probes
successfully and is not skipped (not already compatible with `skip_when_ok`,
output not existing) raises `AttributeError` at the `cfg.disk_min_free_mb`
read of the disk-space preflight instead of returning a result triple. -/
theorem C9_config_missing_safety_rails :
    (∀ f ∈ safetyRailFields, f ∉ configDeclaredFields) ∧
    (∀ need_v need_a skip_when_ok : Bool,
      ¬ (need_v = false ∧ need_a = false ∧ skip_when_ok = true) →
      convert_file_prefix configDeclaredFields true need_v need_a skip_when_ok false =
        .error "AttributeError: disk_min_free_mb") := by
  constructor
  · decide
  · intro need_v need_a skip_when_ok h
    cases need_v <;> cases need_a <;> cases skip_when_ok <;> simp_all <;> rfl

/-- Witness for C9: a file that needs video work under a plain `Config()`. -/
theorem C9_config_missing_safety_rails_witness :
    convert_file_prefix configDeclaredFields true true false true false =
      .error "AttributeError: disk_min_free_mb" :=
  C9_config_missing_safety_rails.2 true false true (by simp)

/-! ## C10 — JSONL skip records collapse under the missing id key -/

/-- Helper: a `record_skip` entry carries no `id` key. -/
theorem jGet_skipEntry_id (input now backend reason : String) :
    jGet (skipEntry input now backend reason) "id" = none := rfl

/-- Helper: folding id-less entries into the merge map keeps one bucket. -/
theorem mergeFold_idless (es : List JEntry) (d : JEntry)
    (h : ∀ e ∈ es, jGet e "id" = none) :
    ∃ d2, es.foldl (fun acc e =>
      let eid := jGet e "id"
      if (acc.find? (fun kv => kv.1 = eid)).isSome then
        acc.map (fun kv => if kv.1 = eid then (kv.1, jUpdate kv.2 e) else kv)
      else acc ++ [(eid, e)]) [((none : Option String), d)] = [(none, d2)] := by
  induction es generalizing d with
  | nil => exact ⟨d, rfl⟩
  | cons e rest ih =>
    have he : jGet e "id" = none := h e (by simp)
    have hrest : ∀ e' ∈ rest, jGet e' "id" = none := fun e' h' => h e' (by simp [h'])
    simpa [he] using ih (jUpdate d e) hrest

/-- Helper: merging a nonempty all-id-less log yields a single bucket. -/
theorem mergeById_idless (log : List JEntry) (hne : log ≠ [])
    (h : ∀ e ∈ log, jGet e "id" = none) :
    ∃ d, mergeById log = [(none, d)] := by
  match log, hne with
  | e :: rest, _ =>
    have he : jGet e "id" = none := h e (by simp)
    have hrest : ∀ e' ∈ rest, jGet e' "id" = none := fun e' h' => h e' (by simp [h'])
    obtain ⟨d2, hd2⟩ := mergeFold_idless rest e hrest
    exact ⟨d2, by simpa [mergeById, he] using hd2⟩

/-- C10: in the JSONL fallback storage, `record_skip` writes entries with no
`id` key while `get_recent` merges by id, so any `n ≥ 2` consecutive skip
records collapse: `get_recent` returns exactly one merged entry, not `n`. -/
theorem C10_jsonl_skips_collapse (log : List JEntry)
    (hskips : ∀ e ∈ log, ∃ input now backend reason,
      e = skipEntry input now backend reason)
    (hn : 2 ≤ log.length) :
    (get_recent 20 log).length = 1 := by
  have hids : ∀ e ∈ log, jGet e "id" = none := by
    intro e he
    obtain ⟨i, n, b, r, rfl⟩ := hskips e he
    exact jGet_skipEntry_id i n b r
  have hne : log ≠ [] := by
    intro h; subst h; simp at hn
  obtain ⟨d, hd⟩ := mergeById_idless log hne hids
  simp [get_recent, hd, sortByStartedDesc, insertByStartedDesc]

/-- Witness for C10: two skip records, one surviving entry. -/
theorem C10_jsonl_skips_collapse_witness :
    (get_recent 20 [skipEntry "/a.mkv" "2026-01-01T10:00" "cpu" "output exists",
                    skipEntry "/b.mkv" "2026-01-01T11:00" "cpu" "compatible"]).length = 1 :=
  C10_jsonl_skips_collapse _
    (by
      intro e he
      simp only [List.mem_cons, List.not_mem_nil, or_false] at he
      rcases he with rfl | rfl
      · exact ⟨"/a.mkv", "2026-01-01T10:00", "cpu", "output exists", rfl⟩
      · exact ⟨"/b.mkv", "2026-01-01T11:00", "cpu", "compatible", rfl⟩)
    (by simp)

/-! ## C7 — the integrity state machine -/

/-- C7: with integrity checking enabled, `integrity_check` fails every file
below 1 MiB; `stable_wait = 0` bypasses the stability stage entirely (the
result does not depend on the post-wait size sample); and it succeeds iff the
size is at least 1 MiB, the size is unchanged over the stability wait when
`stable_wait > 0`, the 8-second-timeout ffprobe run exits zero, and — when
`deep_check` is set — the video-only null decode exits zero. -/
theorem C7_integrity_check_characterization
    (stable_wait : ℤ) (deep_check : Bool) (path : String)
    (size0 sizeAfter : Nat) (runQ : RunQuiet) (runP : RunProc) :
    (size0 < 1024 * 1024 →
      integrity_check true stable_wait deep_check path size0 sizeAfter runQ runP = false) ∧
    (integrity_check true 0 deep_check path size0 sizeAfter runQ runP =
      integrity_check true 0 deep_check path size0 size0 runQ runP) ∧
    (integrity_check true stable_wait deep_check path size0 sizeAfter runQ runP = true ↔
      (1024 * 1024 ≤ size0 ∧ (0 < stable_wait → sizeAfter = size0) ∧
        check_ffprobe_valid runQ path = true ∧
        (deep_check = true → check_deep_decode runP path = true))) := by
  refine ⟨?_, ?_, ?_⟩
  · intro h
    simp [integrity_check, h]
  · simp [integrity_check]
  · unfold integrity_check
    split_ifs with h1 h2 h3 h4 h5 <;> simp_all <;> omega

/-- Witness for C7 at a concrete passing file. -/
theorem C7_integrity_check_witness :
    integrity_check true 0 false "/v/a.mkv" 2000000 0
      (fun _ _ => true) (fun _ _ => some 0) = true :=
  (C7_integrity_check_characterization 0 false "/v/a.mkv" 2000000 0
      (fun _ _ => true) (fun _ _ => some 0)).2.2.mpr
    ⟨by norm_num, by omega, rfl, by simp⟩

/-! ## C8 — the progress parser never divides by zero -/

/-- C8: whenever `parse_ffmpeg_progress` returns a result, the
`progress_percent` it carries is `0` when `duration_ms = 0`, equals
`clamp(0, 100, current_time_ms * 100 / duration_ms)` when `duration_ms > 0`,
and always lies in `[0, 100]` — there is no division by zero and (in the
exact-rational model of the float arithmetic) no NaN. -/
theorem C8_progress_percent_clamped (line : String) (dur_ms : Nat) (r : FFProgress)
    (h : parse_ffmpeg_progress line dur_ms = .ok r) :
    (dur_ms = 0 → r.progress_percent = 0) ∧
    (0 < dur_ms →
      r.progress_percent =
        max 0 (min 100 ((r.current_time_ms : ℚ) * 100 / (dur_ms : ℚ)))) ∧
    0 ≤ r.progress_percent ∧ r.progress_percent ≤ 100 := by
  have hr : r.progress_percent = percentField line.toList dur_ms ∧
      r.current_time_ms = currentTimeField line.toList := by
    dsimp only [parse_ffmpeg_progress] at h
    cases hs : speedField line.toList with
    | error e => rw [hs] at h; simp [Except.map] at h
    | ok sp =>
      rw [hs] at h
      simp only [Except.map, Except.ok.injEq] at h
      subst h
      exact ⟨rfl, rfl⟩
  obtain ⟨hp, hc⟩ := hr
  rw [hp, hc]
  unfold percentField currentTimeField
  cases ht : scanFor parseTimeAt line.toList with
  | none =>
    refine ⟨fun _ => rfl, fun hd => ?_, le_refl 0, by norm_num⟩
    simp [hd]
  | some ms =>
    have hdiv : ∀ hd : 0 < dur_ms,
        (ms : ℚ) / (dur_ms : ℚ) * 100 = (ms : ℚ) * 100 / (dur_ms : ℚ) := by
      intro _; ring
    have hnn : ∀ hd : 0 < dur_ms, 0 ≤ (ms : ℚ) * 100 / (dur_ms : ℚ) := by
      intro hd
      positivity
    refine ⟨fun hd => by simp [hd], fun hd => ?_, ?_, ?_⟩
    · simp only [Option.getD_some, hd, if_pos]
      rw [hdiv hd]
      rw [max_eq_right]
      exact le_min (by norm_num) (hnn hd)
    · by_cases hd : 0 < dur_ms
      · simp only [hd, if_pos]
        rw [hdiv hd]
        exact le_min (by norm_num) (hnn hd)
      · simp [hd]
    · by_cases hd : 0 < dur_ms
      · simp only [hd, if_pos]
        exact min_le_left _ _
      · simp [hd]

/-- Witness for C8 on a concrete stats line. -/
theorem C8_progress_percent_clamped_witness :
    parse_ffmpeg_progress "frame= 10 time=00:00:05.00" 10000 =
      .ok ⟨50, 0, "", "", 5000, 10, 0⟩ ∧
    (50 : ℚ) = max 0 (min 100 ((5000 : ℚ) * 100 / (10000 : ℚ))) := by
  have hp : parse_ffmpeg_progress "frame= 10 time=00:00:05.00" 10000 =
      .ok ⟨50, 0, "", "", 5000, 10, 0⟩ := by with_unfolding_all rfl
  exact ⟨hp, by
    have := (C8_progress_percent_clamped "frame= 10 time=00:00:05.00" 10000
      ⟨50, 0, "", "", 5000, 10, 0⟩ hp).2.1 (by norm_num)
    simpa using this⟩

/-! ## C2 — progress percent monotonicity -/

/-- C2 counterexample: the delivery loop forwards an update whenever the
speed string changes (pipeline.py:223), even if the freshly parsed percent is
lower; a `speed=`-only stderr line parses as percent 0, so after a line at
50% the sink receives 0% — the delivered percents are not monotonic. -/
theorem C2_percent_monotonic_counterexample :
    deliveredUpdates 10000 ["frame=  10 time=00:00:05.00", "speed=2.0x"] =
      [(50, ""), (0, "2.0x")] ∧
    ¬ List.Chain' (· ≤ ·)
      ((deliveredUpdates 10000 ["frame=  10 time=00:00:05.00", "speed=2.0x"]).map
        Prod.fst) := by
  have he : deliveredUpdates 10000 ["frame=  10 time=00:00:05.00", "speed=2.0x"] =
      [(50, ""), (0, "2.0x")] := by with_unfolding_all rfl
  refine ⟨he, ?_⟩
  rw [he]
  intro h
  simp only [List.map_cons, List.map_nil, List.chain'_cons] at h
  omega

/-- Helper for C2: the loop invariant — when no surviving line contributes a
speed string, every delivered percent strictly exceeds the running
`last_pct`, in order. -/
theorem runProgressLoop_chain (dur : Nat) (lines : List String)
    (h : ∀ l ∈ lines, lineSpeed dur l = "") :
    ∀ lastPct : ℤ,
      List.Chain (· < ·) lastPct
        ((runProgressLoop dur lines lastPct "").map Prod.fst) := by
  induction lines with
  | nil => intro lastPct; simp [runProgressLoop]
  | cons l rest ih =>
    intro lastPct
    have hl : lineSpeed dur l = "" := h l (by simp)
    have hrest : ∀ l' ∈ rest, lineSpeed dur l' = "" :=
      fun l' h' => h l' (List.mem_cons_of_mem _ h')
    cases hp : pipelineParseProgress l dur with
    | error e => simp [runProgressLoop, hp]
    | ok t =>
      obtain ⟨pct, speed, out⟩ := t
      have hs : speed = "" := by simpa [lineSpeed, hp] using hl
      subst hs
      by_cases hgt : pct > lastPct
      · have : runProgressLoop dur (l :: rest) lastPct "" =
            (pct, "") :: runProgressLoop dur rest pct "" := by
          simp [runProgressLoop, hp, hgt]
        rw [this]
        exact List.Chain.cons hgt (ih hrest pct)
      · have : runProgressLoop dur (l :: rest) lastPct "" =
            runProgressLoop dur rest lastPct "" := by
          simp [runProgressLoop, hp, hgt]
        rw [this]
        exact ih hrest lastPct

/-- C2 amended: the percents delivered to the sink within a stage are
monotonic (indeed strictly increasing) for every stderr line sequence in
which no line contributes a speed string; in general an update fired by a
mere speed change re-delivers the current line's parsed percent, which may be
smaller than any previously delivered percent (see the counterexample). -/
theorem C2_percent_monotonic_amended (dur : Nat) (lines : List String)
    (h : ∀ l ∈ lines, lineSpeed dur l = "") :
    List.Chain' (· ≤ ·) ((deliveredUpdates dur lines).map Prod.fst) := by
  have hc := runProgressLoop_chain dur lines h 0
  have h0 : List.Chain' (· < ·)
      ((0 : ℤ) :: (deliveredUpdates dur lines).map Prod.fst) := hc
  exact h0.tail.imp fun _ _ hab => le_of_lt hab

/-- Witness for the amended C2 on speed-free stats lines. -/
theorem C2_percent_monotonic_amended_witness :
    List.Chain' (· ≤ ·)
      ((deliveredUpdates 10000 ["time=00:00:01.00", "time=00:00:02.00"]).map
        Prod.fst) := by
  apply C2_percent_monotonic_amended
  intro l hl
  simp only [List.mem_cons, List.not_mem_nil, or_false] at hl
  rcases hl with rfl | rfl
  · with_unfolding_all rfl
  · with_unfolding_all rfl

/-! ## C4 — video-copy eligibility -/

/-- C4 counterexample: for an 8-bit SDR h264 file whose (lowercased) probed
profile string is `high10`, the code transcodes (its exclusion set also
contains the no-space spelling, converter.py:727), while the claim's rule —
profile not in `{high 10, high 4:2:2, high 4:4:4}` — makes this a copy. -/
theorem C4_need_v_counterexample :
    decide_need_v ⟨false, false⟩
        ⟨"movie.mkv", "h264", "yuv420p", "High10", 0, "", ""⟩ = true ∧
    spec_need_v ⟨false, false⟩
        ⟨"movie.mkv", "h264", "yuv420p", "High10", 0, "", ""⟩ = false := by
  constructor
  · with_unfolding_all rfl
  · with_unfolding_all rfl

/-- C4 amended: `decide_for` sets `need_v` exactly as the claim's ordered
rule chain prescribes once the h264 profile exclusion set also carries the
spelling `high10`: transcode on av1 codec or `AV1` in the uppercased
filename, then on `force_h264`; copy for h264 with derived bit depth ≤ 8,
`pix_fmt ∈ {yuv420p, yuvj420p}`, not HDR, profile outside the (amended)
exclusion set and level 0 or ≤ 41; copy for hevc/h265 only under
`allow_hevc` with bit depth ≤ 8 and not HDR; transcode otherwise. -/
theorem C4_need_v_amended (cfg : VideoCfg) (p : VideoProbe) :
    decide_need_v cfg p = spec_need_v_amended cfg p := by
  dsimp only [decide_need_v, spec_need_v_amended]
  split_ifs <;> simp_all

/-! ## C5 — audio track selection -/

/-- C5 counterexample: with `audio_lang = "eng"` and two English streams, the
first titled exactly `audio-description`, the code's first pass filters it
out (its substring list also carries the hyphenated spelling,
converter.py:494) and selects the second stream, while the claim's
five-substring filter does not recognize the title as an audio description
and selects the first stream. -/
theorem C5_select_audio_counterexample :
    select_audio_track ⟨none, some "eng"⟩
        [⟨"audio", "eng", "audio-description", 1⟩, ⟨"audio", "eng", "", 2⟩] =
      some ⟨"audio", "eng", "", 2⟩ ∧
    spec_select_audio_track ⟨none, some "eng"⟩
        [⟨"audio", "eng", "audio-description", 1⟩, ⟨"audio", "eng", "", 2⟩] =
      some ⟨"audio", "eng", "audio-description", 1⟩ := by
  constructor
  · with_unfolding_all rfl
  · with_unfolding_all rfl

/-- Helper for C5: steps 2–4 of the selection never come back empty —
the first-audio-stream fallback is unconditional. -/
theorem selectAudioLangs_ne_none (ad : String → Bool) (cfg : AudioCfg)
    (audio : List ProbeStream) (h : ¬ audio = []) :
    selectAudioCore.selectAudioLangs ad cfg audio h ≠ none := by
  unfold selectAudioCore.selectAudioLangs
  cases hal : cfg.audio_lang with
  | none => cases hfr : frenchFallback ad audio <;> simp [hfr]
  | some s =>
    by_cases hs : s = ""
    · cases hfr : frenchFallback ad audio <;> simp [hs, hfr]
    · cases htl : tryLangList ad audio ((s.splitOn ",").map (fun l => pyLower l.trim)) with
      | some st => simp [hs, htl]
      | none => cases hfr : frenchFallback ad audio <;> simp [hs, htl, hfr]

/-- Helper for C5: the selection is empty exactly when no audio stream exists. -/
theorem selectAudioCore_eq_none_iff (ad : String → Bool) (cfg : AudioCfg)
    (streams : List ProbeStream) :
    selectAudioCore ad cfg streams = none ↔
      streams.filter (fun s => s.codec_type = "audio") = [] := by
  unfold selectAudioCore
  by_cases h : streams.filter (fun s => s.codec_type = "audio") = []
  · simp [h]
  · rw [dif_neg h]
    constructor
    · intro hsel
      exfalso
      cases htr : cfg.audio_track with
      | none =>
        rw [htr] at hsel
        exact selectAudioLangs_ne_none ad cfg _ h hsel
      | some k =>
        rw [htr] at hsel
        dsimp only at hsel
        by_cases hk : 0 ≤ k ∧ k < (streams.filter (fun s => s.codec_type = "audio")).length
        · rw [dif_pos hk] at hsel; simp at hsel
        · rw [dif_neg hk] at hsel
          exact selectAudioLangs_ne_none ad cfg _ h hsel
    · intro hc; exact absurd hc h

/-- C5 amended: `select_audio_track` implements exactly the claim's priority
chain once the audio-description substring list also carries
`audio-description`: explicit in-range `audio_track` index first; then, per
`audio_lang` language in order, a first pass excluding audio-description
titles and a second pass accepting any match; then the same two passes over
the default languages `{fre, fra, fr}`; finally the first audio stream — and
it returns no stream exactly when the input has no audio streams. -/
theorem C5_select_audio_amended (cfg : AudioCfg) (streams : List ProbeStream) :
    select_audio_track cfg streams = spec_select_audio_track_amended cfg streams ∧
    (select_audio_track cfg streams = none ↔
      streams.filter (fun s => s.codec_type = "audio") = []) :=
  ⟨rfl, selectAudioCore_eq_none_iff is_audio_description cfg streams⟩

/-- Witness for the amended C5: empty stream lists select nothing. -/
theorem C5_select_audio_amended_witness :
    select_audio_track ⟨none, none⟩ [⟨"video", "", "", 0⟩] = none :=
  (C5_select_audio_amended ⟨none, none⟩ [⟨"video", "", "", 0⟩]).2.mpr
    (by with_unfolding_all rfl)

/-! ## C6 — encode retry loop -/

/-- Helper for C6: past-the-end unfolding of the attempt loop. -/

theorem encodeAttemptsGo_eq_nil (total : Nat) (fb : Bool) (delay : ℚ)
    (build : String → List String) (outcomes : Nat → String → ℤ) (stop : Nat → Bool)
    (i : Nat) (b : String) (h : ¬ i < total) :
    encodeAttemptsGo total fb delay build outcomes stop i b = [] := by
  unfold encodeAttemptsGo; rw [dif_neg h]

theorem encodeAttemptsGo_eq_cons (total : Nat) (fb : Bool) (delay : ℚ)
    (build : String → List String) (outcomes : Nat → String → ℤ) (stop : Nat → Bool)
    (i : Nat) (b : String) (h : i < total) :
    encodeAttemptsGo total fb delay build outcomes stop i b =
      (⟨b, build b, if 0 < i ∧ 0 < delay then delay else 0⟩ : AttemptRec) ::
      (if outcomes i b = 0 then []
       else if stop i then []
       else if i < total - 1 then
         encodeAttemptsGo total fb delay build outcomes stop (i + 1)
           (if fb ∧ b ≠ "cpu" ∧ i = total - 2 then "cpu" else b)
       else []) := by
  conv_lhs => unfold encodeAttemptsGo
  rw [dif_pos h]
  by_cases h1 : outcomes i b = 0
  · simp [h1]
  · by_cases h2 : stop i
    · simp [h1, h2]
    · by_cases h3 : i < total - 1
      · simp [h1, h2, h3]
      · simp [h1, h2, h3]

theorem encodeAttemptsGo_length (total : Nat) (fb : Bool) (delay : ℚ)
    (build : String → List String) (outcomes : Nat → String → ℤ) (stop : Nat → Bool) :
    ∀ fuel i b, total - i ≤ fuel →
      (encodeAttemptsGo total fb delay build outcomes stop i b).length ≤ total - i := by
  intro fuel
  induction fuel with
  | zero =>
    intro i b h
    rw [encodeAttemptsGo_eq_nil total fb delay build outcomes stop i b (by omega)]
    simp
  | succ n ih =>
    intro i b h
    by_cases hi : i < total
    · rw [encodeAttemptsGo_eq_cons total fb delay build outcomes stop i b hi]
      simp only [List.length_cons]
      by_cases h1 : outcomes i b = 0
      · rw [if_pos h1]; simp only [List.length_nil]; omega
      · rw [if_neg h1]
        by_cases h2 : stop i
        · rw [if_pos h2]; simp only [List.length_nil]; omega
        · rw [if_neg h2]
          by_cases h3 : i < total - 1
          · rw [if_pos h3]
            have := ih (i + 1)
              (if fb ∧ b ≠ "cpu" ∧ i = total - 2 then "cpu" else b) (by omega)
            omega
          · rw [if_neg h3]; simp only [List.length_nil]; omega
    · rw [encodeAttemptsGo_eq_nil total fb delay build outcomes stop i b hi]; simp

theorem encodeAttemptsGo_elem (total : Nat) (fb : Bool) (delay : ℚ)
    (build : String → List String) (outcomes : Nat → String → ℤ) (stop : Nat → Bool) :
    ∀ fuel i b, total - i ≤ fuel →
      ∀ (j : Nat) (att : AttemptRec),
        (encodeAttemptsGo total fb delay build outcomes stop i b).get? j = some att →
        att.backend = (if fb = true ∧ b ≠ "cpu" ∧ i + j = total - 1 ∧ 1 ≤ j then "cpu" else b) ∧
        att.cmd = build att.backend ∧
        att.sleptBefore = (if 0 < i + j ∧ 0 < delay then delay else 0) := by
  intro fuel
  induction fuel with
  | zero =>
    intro i b h j att hatt
    rw [encodeAttemptsGo_eq_nil total fb delay build outcomes stop i b (by omega)] at hatt
    simp at hatt
  | succ n ih =>
    intro i b h j att hatt
    by_cases hi : i < total
    · rw [encodeAttemptsGo_eq_cons total fb delay build outcomes stop i b hi] at hatt
      rcases j with _ | j
      · simp only [List.get?] at hatt
        have hatt' : att = ⟨b, build b, if 0 < i ∧ 0 < delay then delay else 0⟩ := by
          simpa using hatt.symm
        subst hatt'
        refine ⟨?_, rfl, ?_⟩
        · have hni : ¬ (fb = true ∧ b ≠ "cpu" ∧ i + 0 = total - 1 ∧ 1 ≤ 0) := by
            rintro ⟨_, _, _, hle⟩; omega
          rw [if_neg hni]
        · simp [Nat.add_zero]
      · simp only [List.get?] at hatt
        by_cases h1 : outcomes i b = 0
        · rw [if_pos h1] at hatt; simp at hatt
        · rw [if_neg h1] at hatt
          by_cases h2 : stop i
          · rw [if_pos h2] at hatt; simp at hatt
          · rw [if_neg h2] at hatt
            by_cases h3 : i < total - 1
            · rw [if_pos h3] at hatt
              have hlen := encodeAttemptsGo_length total fb delay build outcomes stop (n + 1)
                (i + 1) (if fb ∧ b ≠ "cpu" ∧ i = total - 2 then "cpu" else b) (by omega)
              have hjlen : j < (encodeAttemptsGo total fb delay build outcomes stop (i + 1)
                  (if fb ∧ b ≠ "cpu" ∧ i = total - 2 then "cpu" else b)).length :=
                (List.get?_eq_some.mp hatt).1
              obtain ⟨ihB, ihC, ihS⟩ := ih (i + 1)
                (if fb ∧ b ≠ "cpu" ∧ i = total - 2 then "cpu" else b) (by omega) j att hatt
              refine ⟨?_, ihC, ?_⟩
              · rw [ihB]
                by_cases hsw : fb = true ∧ b ≠ "cpu" ∧ i = total - 2
                · have hb2 : (if fb ∧ b ≠ "cpu" ∧ i = total - 2 then "cpu" else b) = "cpu" := by
                    simp [hsw.1, hsw.2.1, hsw.2.2]
                  rw [hb2]
                  rw [hb2] at hjlen hlen
                  have hj0 : j = 0 := by omega
                  subst hj0
                  rw [if_neg (by rintro ⟨_, hcc, _⟩; exact hcc rfl)]
                  rw [if_pos ⟨hsw.1, hsw.2.1, by omega, by omega⟩]
                · have hb2 : (if fb ∧ b ≠ "cpu" ∧ i = total - 2 then "cpu" else b) = b := by
                    rw [if_neg]
                    intro hc
                    exact hsw ⟨hc.1, hc.2.1, hc.2.2⟩
                  rw [hb2]
                  by_cases hj1 : 1 ≤ j
                  · rw [if_congr (show (fb = true ∧ b ≠ "cpu" ∧ i + 1 + j = total - 1 ∧ 1 ≤ j) ↔
                        (fb = true ∧ b ≠ "cpu" ∧ i + (j + 1) = total - 1 ∧ 1 ≤ j + 1) from by
                      constructor <;> (rintro ⟨ha, hb', hc, _⟩; exact ⟨ha, hb', by omega, by omega⟩))
                      rfl rfl]
                  · have hj0 : j = 0 := by omega
                    subst hj0
                    rw [if_neg (by rintro ⟨_, _, _, hle⟩; omega)]
                    rw [if_neg (by
                      rintro ⟨ha, hb', hc, _⟩
                      exact hsw ⟨ha, hb', by omega⟩)]
              · rw [ihS]
                rw [if_congr (show (0 < i + 1 + j ∧ 0 < delay) ↔ (0 < i + (j + 1) ∧ 0 < delay) from by
                  constructor <;> (rintro ⟨_, hd⟩; exact ⟨by omega, hd⟩)) rfl rfl]
            · rw [if_neg h3] at hatt; simp at hatt
    · rw [encodeAttemptsGo_eq_nil total fb delay build outcomes stop i b hi] at hatt
      simp at hatt

/-- C6: every encode job is attempted at most `1 + retry_attempts` times;
each attempt after the first is preceded by a `retry_delay_sec` sleep; each
attempt rebuilds the ffmpeg command against its own (current) backend; and
the backend is switched to cpu exactly for the final attempt of the full
schedule — and only when `retry_fallback_cpu` is set, the original backend is
not cpu, and there is an earlier attempt — never for any earlier attempt. -/
theorem C6_retry_loop (cfg : RetryCfg) (base : String) (build : String → List String)
    (outcomes : Nat → String → ℤ) (stop : Nat → Bool)
    (hra : 0 ≤ cfg.retry_attempts) (hdelay : 0 ≤ cfg.retry_delay_sec) :
    ((encode_worker_attempts cfg base build outcomes stop).length : ℤ) ≤
      1 + cfg.retry_attempts ∧
    (∀ (j : Nat) (att : AttemptRec),
      (encode_worker_attempts cfg base build outcomes stop).get? j = some att →
      att.backend = (if cfg.retry_fallback_cpu = true ∧ base ≠ "cpu" ∧
          j = (1 + (max 0 cfg.retry_attempts).toNat) - 1 ∧ 1 ≤ j then "cpu" else base) ∧
      att.cmd = build att.backend ∧
      att.sleptBefore = (if 1 ≤ j then cfg.retry_delay_sec else 0)) := by
  have hmax : max 0 cfg.retry_attempts = cfg.retry_attempts := max_eq_right hra
  constructor
  · have hlen := encodeAttemptsGo_length (1 + (max 0 cfg.retry_attempts).toNat)
      cfg.retry_fallback_cpu cfg.retry_delay_sec build outcomes stop
      (1 + (max 0 cfg.retry_attempts).toNat) 0 base (by omega)
    unfold encode_worker_attempts
    have hcast : ((1 + (max 0 cfg.retry_attempts).toNat : Nat) : ℤ) =
        1 + cfg.retry_attempts := by
      rw [hmax]
      push_cast
      rw [Int.toNat_of_nonneg hra]
    omega
  · intro j att hatt
    unfold encode_worker_attempts at hatt
    obtain ⟨hB, hC, hS⟩ := encodeAttemptsGo_elem (1 + (max 0 cfg.retry_attempts).toNat)
      cfg.retry_fallback_cpu cfg.retry_delay_sec build outcomes stop
      (1 + (max 0 cfg.retry_attempts).toNat) 0 base (by omega) j att hatt
    simp only [Nat.zero_add] at hB hS
    refine ⟨hB, hC, ?_⟩
    rw [hS]
    by_cases hj : 1 ≤ j
    · by_cases hd : 0 < cfg.retry_delay_sec
      · rw [if_pos ⟨by omega, hd⟩, if_pos hj]
      · have h0 : cfg.retry_delay_sec = 0 := le_antisymm (not_lt.mp hd) hdelay
        rw [if_neg (by rintro ⟨_, hdd⟩; exact hd hdd), if_pos hj, h0]
    · rw [if_neg (by rintro ⟨hja, _⟩; omega), if_neg hj]

/-- Witness for C6: three total attempts for `retry_attempts = 2`. -/
theorem C6_retry_loop_witness :
    ((encode_worker_attempts ⟨2, 5, true⟩ "vaapi" (fun b => ["ffmpeg", b])
        (fun _ _ => 1) (fun _ => false)).length : ℤ) ≤ 3 := by
  have h := (C6_retry_loop ⟨2, 5, true⟩ "vaapi" (fun b => ["ffmpeg", b])
    (fun _ _ => 1) (fun _ => false) (by norm_num) (by norm_num)).1
  norm_num at h
  exact_mod_cast h

/-! ## C1 — temp path placement and commit -/

/-- Helper for C1: `Nat.digitChar` never yields a slash. -/
theorem digitChar_ne_slash (m : Nat) : Nat.digitChar m ≠ '/' := by
  rcases Nat.lt_or_ge m 16 with h | h
  · interval_cases m <;> decide
  · have h16 : Nat.digitChar m = '*' := by
      unfold Nat.digitChar
      repeat rw [if_neg (by omega)]
    rw [h16]; decide

/-- Helper for C1: every character `Nat.toDigitsCore` emits is a digit
character or comes from the accumulator. -/
theorem mem_toDigitsCore (b : Nat) :
    ∀ (fuel n : Nat) (ds : List Char) (c : Char),
      c ∈ Nat.toDigitsCore b fuel n ds → c ∈ ds ∨ ∃ m, c = Nat.digitChar m := by
  intro fuel
  induction fuel with
  | zero => intro n ds c h; exact Or.inl h
  | succ f ih =>
    intro n ds c h
    unfold Nat.toDigitsCore at h
    by_cases hz : n / b = 0
    · rw [if_pos hz] at h
      rcases List.mem_cons.mp h with rfl | hds
      · exact Or.inr ⟨n % b, rfl⟩
      · exact Or.inl hds
    · rw [if_neg hz] at h
      rcases ih (n / b) (Nat.digitChar (n % b) :: ds) c h with hds | hd
      · rcases List.mem_cons.mp hds with rfl | hds'
        · exact Or.inr ⟨n % b, rfl⟩
        · exact Or.inl hds'
      · exact Or.inr hd

/-- Helper for C1: the decimal representation of a `Nat` contains no slash. -/
theorem natToString_no_slash (n : Nat) : ∀ c ∈ (toString n).toList, c ≠ '/' := by
  intro c hc
  have hc' : c ∈ Nat.toDigitsCore 10 (n + 1) n [] := hc
  rcases mem_toDigitsCore 10 (n + 1) n [] c hc' with h | ⟨m, rfl⟩
  · simp at h
  · exact digitChar_ne_slash m

/-- Helper for C1: `Path.name` is slash-free. -/
theorem pathName_no_slash (p : String) : ∀ c ∈ (pathName p).toList, c ≠ '/' := by
  intro c hc
  have hc' : c ∈ p.toList.reverse.takeWhile (fun ch => decide (ch ≠ '/')) := by
    simpa [pathName] using hc
  have := List.mem_takeWhile_imp hc'
  simpa using this

/-- Helper for C1: `Path.stem` is slash-free. -/
theorem pathStem_no_slash (p : String) : ∀ c ∈ (pathStem p).toList, c ≠ '/' := by
  intro c hc
  unfold pathStem at hc
  split at hc
  next c0 stemRev hext heq =>
    have hmem : c ∈ c0 :: stemRev := by
      simp only [String.toList] at hc
      simp only [List.mem_reverse] at hc
      exact hc
    have hdw : c ∈ (pathName p).toList.reverse.dropWhile (fun ch => decide (ch ≠ '.')) := by
      rw [heq]
      exact List.mem_cons_of_mem _ hmem
    have hrev : c ∈ (pathName p).toList.reverse :=
      (List.dropWhile_sublist _).mem hdw
    exact pathName_no_slash p c (List.mem_reverse.mp hrev)
  next _ _ =>
    exact pathName_no_slash p c hc

/-- Helper for C1: parent of `dir ++ "/" ++ name` is `dir` when `dir` is
nonempty and `name` slash-free. -/
theorem pathParent_append (d n : String) (hd : d ≠ "")
    (hn : ∀ c ∈ n.toList, c ≠ '/') :
    pathParent (d ++ "/" ++ n) = d := by
  unfold pathParent
  have hlist : (d ++ "/" ++ n).toList = d.toList ++ '/' :: n.toList := by
    simp
  rw [hlist, List.reverse_append, List.reverse_cons, List.append_assoc]
  have hdrop : ∀ (l : List Char), (∀ c ∈ l, c ≠ '/') →
      List.dropWhile (fun ch => decide (ch ≠ '/')) (l ++ (['/'] ++ d.toList.reverse)) =
        ['/'] ++ d.toList.reverse := by
    intro l hl
    induction l with
    | nil => simp [List.dropWhile]
    | cons a t ih =>
      have ha : a ≠ '/' := hl a (List.mem_cons_self a t)
      have ht : ∀ c ∈ t, c ≠ '/' := fun c h => hl c (List.mem_cons_of_mem a h)
      simpa [List.dropWhile, ha] using ih ht
  have hmem : ∀ c ∈ n.toList.reverse, c ≠ '/' :=
    fun c h => hn c (List.mem_reverse.mp h)
  rw [hdrop n.toList.reverse hmem]
  have hdl : d.toList ≠ [] := by
    intro h
    apply hd
    cases d with
    | mk data =>
      simp only [String.toList] at h
      simp [h]
  cases hdata : d.toList.reverse with
  | nil => exact absurd (by simpa using hdata) hdl
  | cons x xs =>
    simp only [List.cons_append, List.nil_append]
    have hx : String.mk (x :: xs).reverse = d := by
      rw [← hdata, List.reverse_reverse]
      cases d with
      | mk data => rfl
    simpa using hx

/-- Helper for C1: slash-freeness is closed under concatenation. -/
theorem append_no_slash {a b : String} (ha : ∀ c ∈ a.toList, c ≠ '/')
    (hb : ∀ c ∈ b.toList, c ≠ '/') : ∀ c ∈ (a ++ b).toList, c ≠ '/' := by
  intro c hc
  rw [show (a ++ b).toList = a.toList ++ b.toList from by simp] at hc
  rcases List.mem_append.mp hc with h | h
  exacts [ha c h, hb c h]

/-- C1 counterexample: `get_tmp_path` resolves its base directory from
`APP_DIRS["tmp"]`, the XDG cache directory, not from the directory of
`final_path`; at a concrete input the produced temp path differs from the
path the spec's scheme describes, and its parent directory differs from
`final_path`'s — tmp and final are not co-located, so the
`shutil.move` commit (pipeline.py:494) is not in general a same-filesystem
rename. -/
theorem C1_tmp_path_counterexample :
    get_tmp_path "/home/user/.cache/mkv2cast/tmp" 1234 ".cast" "mkv"
        "/videos/movie.mkv" 0 ".h264" ≠
      spec_tmp_path 1234 ".cast" "mkv" "/videos/movie.mkv" 0 ".h264" ∧
    pathParent (get_tmp_path "/home/user/.cache/mkv2cast/tmp" 1234 ".cast" "mkv"
        "/videos/movie.mkv" 0 ".h264") ≠
      pathParent (final_path ".cast" "mkv" "/videos/movie.mkv" ".h264") := by
  constructor
  · decide
  · decide

/-- C1 amended: every temp path has the form
`{tmp_dir}/{stem}{tag}{suffix}.tmp.{pid}.{worker_id}.{ext}` where `tmp_dir`
is the XDG cache temp directory (`APP_DIRS["tmp"]`), not the directory of
`final_path`; in particular the temp path's parent is that cache directory,
so tmp is co-located with final only when the cache directory happens to be
the input's directory, and the commit relies on `shutil.move`, which
degrades to a copy when the two live on different filesystems. -/
theorem C1_tmp_path_scheme_amended (tmpDir : String) (pid : Nat)
    (sfx cont : String) (inp : String) (wid : Nat) (tag : String)
    (hd : tmpDir ≠ "")
    (htag : ∀ c ∈ tag.toList, c ≠ '/') (hsfx : ∀ c ∈ sfx.toList, c ≠ '/')
    (hcont : ∀ c ∈ cont.toList, c ≠ '/') :
    get_tmp_path tmpDir pid sfx cont inp wid tag =
      tmpDir ++ "/" ++ (pathStem inp ++ tag ++ sfx ++ ".tmp." ++ toString pid ++ "." ++
        toString wid ++ "." ++ cont) ∧
    pathParent (get_tmp_path tmpDir pid sfx cont inp wid tag) = tmpDir := by
  refine ⟨rfl, ?_⟩
  have hdot : ∀ c ∈ (".".toList : List Char), c ≠ '/' := by decide
  have htmp : ∀ c ∈ (".tmp.".toList : List Char), c ≠ '/' := by decide
  have h1 := append_no_slash (pathStem_no_slash inp) htag
  have h2 := append_no_slash h1 hsfx
  have h3 := append_no_slash h2 htmp
  have h4 := append_no_slash h3 (natToString_no_slash pid)
  have h5 := append_no_slash h4 hdot
  have h6 := append_no_slash h5 (natToString_no_slash wid)
  have h7 := append_no_slash h6 hdot
  have h8 := append_no_slash h7 hcont
  exact pathParent_append _ _ hd h8

/-- Witness for the amended C1 at a concrete job. -/
theorem C1_tmp_path_scheme_amended_witness :
    pathParent (get_tmp_path "/home/user/.cache/mkv2cast/tmp" 1234 ".cast" "mkv"
        "/videos/movie.mkv" 0 ".h264") = "/home/user/.cache/mkv2cast/tmp" :=
  (C1_tmp_path_scheme_amended "/home/user/.cache/mkv2cast/tmp" 1234 ".cast" "mkv"
    "/videos/movie.mkv" 0 ".h264" (by decide) (by decide) (by decide) (by decide)).2

end Mkv2cast
